import Mathlib

/-!
Shallow embedding of the codecrafters HTTP server (src/src/main.rs) in Lean 4.

Rust strings are modelled byte-level as `List Char` (the requests and
responses in scope are ASCII, one `Char` per byte, so `List.length`
coincides with Rust's `str::len`).  The nom streaming combinators used by
the source (`tag`, `take_until1`, `rest`, `alt`, `tuple`,
`separated_pair`) are embedded as functions returning `PResult`, the
three-valued outcome of a nom streaming parser (ok / incomplete / error).
`HashMap<Header, String>` is embedded as a record with one optional slot
per recognized header; its unspecified iteration order is modelled by
quantifying serialization over permutations of the present keys.
-/

namespace HttpServer

abbrev Str := List Char

/-- Outcome of a nom streaming parser: `ok rest value`, or
`Err::Incomplete`, or `Err::Error`/`Err::Failure` collapsed to `error`. -/
inductive PResult (α : Type) where
  | ok (rest : Str) (value : α)
  | incomplete
  | error
deriving DecidableEq

/-- nom `bytes::streaming::tag t`: succeeds when `t` is a prefix of the
input, returns `Incomplete` when the input is a proper prefix of `t`,
fails otherwise. -/
def ptag (t : Str) (input : Str) : PResult Str :=
  if t.isPrefixOf input then .ok (input.drop t.length) t
  else if input.isPrefixOf t then .incomplete
  else .error

/-- Index of the first occurrence of `t` as a contiguous sublist. -/
def findSubstring (t : Str) : Str → Option Nat
  | [] => if t.isEmpty then some 0 else none
  | c :: cs =>
    if t.isPrefixOf (c :: cs) then some 0
    else (findSubstring t cs).map (· + 1)

/-- nom `bytes::streaming::take_until1 t`: `Incomplete` when `t` does not
occur, error when it occurs at position 0, otherwise splits before it. -/
def take_until1 (t : Str) (input : Str) : PResult Str :=
  match findSubstring t input with
  | none => .incomplete
  | some 0 => .error
  | some (n + 1) => .ok (input.drop (n + 1)) (input.take (n + 1))

inductive Method where
  | GET
  | POST
  | PUT
  | DELETE
deriving DecidableEq

def litGET : Str := ['G', 'E', 'T']
def litPOST : Str := ['P', 'O', 'S', 'T']
def litPUT : Str := ['P', 'U', 'T']
def litDELETE : Str := ['D', 'E', 'L', 'E', 'T', 'E']

/-- `Method::parse`: `alt((tag("GET"), tag("POST"), tag("PUT"),
tag("DELETE")))` each mapped to its variant; nom `alt` moves to the next
branch only on `Err::Error`. -/
def Method.parse (input : Str) : PResult Method :=
  match ptag litGET input with
  | .ok rest _ => .ok rest .GET
  | .incomplete => .incomplete
  | .error =>
  match ptag litPOST input with
  | .ok rest _ => .ok rest .POST
  | .incomplete => .incomplete
  | .error =>
  match ptag litPUT input with
  | .ok rest _ => .ok rest .PUT
  | .incomplete => .incomplete
  | .error =>
  match ptag litDELETE input with
  | .ok rest _ => .ok rest .DELETE
  | .incomplete => .incomplete
  | .error => .error

structure RequestLine where
  method : Method
  path : Str
deriving DecidableEq

def litSpace : Str := [' ']

/-- `RequestLine::parse`: `tuple((Method::parse, tag(" "),
take_until1(" "), tag(" "), rest))`, keeping method and path; nom `rest`
consumes all remaining input and never fails. -/
def RequestLine.parse (input : Str) : PResult RequestLine :=
  match Method.parse input with
  | .incomplete => .incomplete
  | .error => .error
  | .ok r1 m =>
  match ptag litSpace r1 with
  | .incomplete => .incomplete
  | .error => .error
  | .ok r2 _ =>
  match take_until1 litSpace r2 with
  | .incomplete => .incomplete
  | .error => .error
  | .ok r3 path =>
  match ptag litSpace r3 with
  | .incomplete => .incomplete
  | .error => .error
  | .ok _ _ => .ok [] { method := m, path := path }

inductive Header where
  | UserAgent
  | ContentType
  | ContentLength
deriving DecidableEq

def litUserAgent : Str := ['U', 's', 'e', 'r', '-', 'A', 'g', 'e', 'n', 't']
def litContentType : Str := ['C', 'o', 'n', 't', 'e', 'n', 't', '-', 'T', 'y', 'p', 'e']
def litContentLength : Str :=
  ['C', 'o', 'n', 't', 'e', 'n', 't', '-', 'L', 'e', 'n', 'g', 't', 'h']

/-- `Header::parse`: `alt((tag("User-Agent"), tag("Content-Type"),
tag("Content-Length")))` mapped to the variants. -/
def Header.parse (input : Str) : PResult Header :=
  match ptag litUserAgent input with
  | .ok rest _ => .ok rest .UserAgent
  | .incomplete => .incomplete
  | .error =>
  match ptag litContentType input with
  | .ok rest _ => .ok rest .ContentType
  | .incomplete => .incomplete
  | .error =>
  match ptag litContentLength input with
  | .ok rest _ => .ok rest .ContentLength
  | .incomplete => .incomplete
  | .error => .error

/-- `impl Display for Header`. -/
def headerName : Header → Str
  | .UserAgent => litUserAgent
  | .ContentType => litContentType
  | .ContentLength => litContentLength

def litSep : Str := [':', ' ']

/-- `parse_header_value`: `separated_pair(Header::parse, tag(": "),
rest)`. -/
def parse_header_value (line : Str) : PResult (Header × Str) :=
  match Header.parse line with
  | .incomplete => .incomplete
  | .error => .error
  | .ok r1 h =>
  match ptag litSep r1 with
  | .incomplete => .incomplete
  | .error => .error
  | .ok r2 _ => .ok [] (h, r2)

/-- `HashMap<Header, String>`: the key type has three variants, so the
map is a record with one optional slot per key. -/
structure Headers where
  userAgent : Option Str
  contentType : Option Str
  contentLength : Option Str
deriving DecidableEq

def Headers.empty : Headers := ⟨none, none, none⟩

/-- `HashMap::get`. -/
def Headers.get (hs : Headers) : Header → Option Str
  | .UserAgent => hs.userAgent
  | .ContentType => hs.contentType
  | .ContentLength => hs.contentLength

/-- `HashMap::insert` (overwrites any previous binding of the key). -/
def Headers.insert (hs : Headers) : Header → Str → Headers
  | .UserAgent, v => { hs with userAgent := some v }
  | .ContentType, v => { hs with contentType := some v }
  | .ContentLength, v => { hs with contentLength := some v }

/-- The keys the map currently binds, in canonical declaration order;
`HashMap` iteration visits exactly these keys, in an unspecified order
modelled as any permutation of this list. -/
def Headers.presentKeys (hs : Headers) : List Header :=
  ([Header.UserAgent, Header.ContentType, Header.ContentLength]).filter
    (fun h => (hs.get h).isSome)

inductive Status where
  | Ok
  | NotFound
deriving DecidableEq

/-- `impl Display for Status`. -/
def statusText : Status → Str
  | .Ok => "200 OK".toList
  | .NotFound => "404 Not Found".toList

structure Response where
  status : Status
  headers : Headers
  body : Str
deriving DecidableEq

def crlf : Str := ['\r', '\n']
def litHttp : Str := ['H', 'T', 'T', 'P', '/', '1', '.', '1', ' ']

/-- One `"Name: value\r\n"` header line of the response. -/
def headerLineOut (hs : Headers) (h : Header) : Str :=
  headerName h ++ litSep ++ ((hs.get h).getD []) ++ crlf

/-- `impl Display for Response`, with the `HashMap` iteration order made
explicit: `order` lists the keys in the order the `for` loop visits them
(admissible orders are the permutations of `presentKeys`). -/
def serializeResponse (order : List Header) (r : Response) : Str :=
  litHttp ++ statusText r.status ++ crlf
    ++ (order.map (headerLineOut r.headers)).flatten
    ++ crlf ++ r.body

/-- `usize::to_string` (decimal, no sign, no leading zeros). -/
def usizeToString (n : Nat) : Str := (Nat.repr n).toList

/-- Connection-scoped failures of `handle_socket` (`anyhow` contexts in
the source): no request line read, `RequestLine::parse` failure, and the
`/user-agent` route finding no User-Agent header. -/
inductive HandleError where
  | noRequestLine
  | malformedRequestLine
  | missingRequiredHeader
deriving DecidableEq

def litRoot : Str := ['/']
def litUserAgentPath : Str := ['/', 'u', 's', 'e', 'r', '-', 'a', 'g', 'e', 'n', 't']
def litEchoPre : Str := ['/', 'e', 'c', 'h', 'o', '/']
def litTextPlain : Str := ['t', 'e', 'x', 't', '/', 'p', 'l', 'a', 'i', 'n']

/-- `str::strip_prefix`. -/
def stripPre (t : Str) (l : Str) : Option Str :=
  if t.isPrefixOf l then some (l.drop t.length) else none

/-- The routing block of `handle_socket` (lines 193–235): dispatch on the
parsed path; the method is accepted but never inspected.  The
`/user-agent` arm propagates a missing-header error via `?`. -/
def route (_method : Method) (path : Str) (headers : Headers) :
    Except HandleError Response :=
  if path = litRoot then
    .ok { status := .Ok, headers := .empty, body := [] }
  else if path = litUserAgentPath then
    match headers.get .UserAgent with
    | none => .error .missingRequiredHeader
    | some ua =>
      .ok { status := .Ok
            headers := (Headers.empty.insert .ContentType litTextPlain).insert
              .ContentLength (usizeToString ua.length)
            body := ua }
  else
    match stripPre litEchoPre path with
    | some echo =>
      .ok { status := .Ok
            headers := (Headers.empty.insert .ContentType litTextPlain).insert
              .ContentLength (usizeToString echo.length)
            body := echo }
    | none => .ok { status := .NotFound, headers := .empty, body := [] }

/-- The header-reading loop of `handle_socket` (lines 171–185): consume
lines until the blank terminator; a line `parse_header_value` rejects is
skipped; an accepted `(header, value)` pair is inserted into the map. -/
def collectHeaders : List Str → Headers → Headers
  | [], acc => acc
  | l :: ls, acc =>
    if l.isEmpty then acc
    else
      match parse_header_value l with
      | .ok _ hv => collectHeaders ls (acc.insert hv.1 hv.2)
      | _ => collectHeaders ls acc

/-- `tokio::io::Lines` over the connection: split the byte stream on
`'\n'`, strip one trailing `'\r'` from each line; a final segment left
empty by a trailing newline is not yielded. -/
def linesOf (input : Str) : List Str :=
  let segs := input.splitOn '\n'
  let segs := if segs.getLast? = some [] then segs.dropLast else segs
  segs.map (fun l => if l.getLast? = some '\r' then l.dropLast else l)

/-- `handle_socket` up to the response value: first line is the request
line, the following lines feed the header loop, then the request line is
parsed and routed. -/
def handleLines : List Str → Except HandleError Response
  | [] => .error .noRequestLine
  | reqLine :: more =>
    match RequestLine.parse reqLine with
    | .ok _ rl => route rl.method rl.path (collectHeaders more .empty)
    | _ => .error .malformedRequestLine

/-- The bytes `handle_socket` writes back for a given raw input and a
given header iteration order: on any `HandleError` the write is never
reached and nothing is sent. -/
def outputBytes (order : List Header) (input : Str) : Option Str :=
  match handleLines (linesOf input) with
  | .ok r => some (serializeResponse order r)
  | .error _ => none

/-- The leading token of a line: the maximal run of non-space bytes. -/
def tokenOf (input : Str) : Str := input.takeWhile (fun c => c ≠ ' ')

/-- The name of a header line in the sense of the spec: the text before
the first occurrence of the `": "` separator, `none` when the line has no
separator. -/
def headerNameOf (line : Str) : Option Str :=
  (findSubstring litSep line).map (fun n => line.take n)

/-- The header names the parser recognizes. -/
def recognizedNames : List Str := [litUserAgent, litContentType, litContentLength]

/-- The response the router builds for any unmatched path. -/
def notFoundResponse : Response := { status := .NotFound, headers := .empty, body := [] }

/-- The fixed request of the echo serialization scenario. -/
def c1Input : Str := "GET /echo/abc HTTP/1.1\r\n\r\n".toList

/-- The response the router builds for that request. -/
def c1Response : Response :=
  { status := .Ok
    headers := { userAgent := none, contentType := some litTextPlain,
                 contentLength := some (usizeToString 3) }
    body := "abc".toList }

/-- The byte sequence the scenario expects (Content-Type line first). -/
def c1Literal : Str :=
  "HTTP/1.1 200 OK\r\nContent-Type: text/plain\r\nContent-Length: 3\r\n\r\nabc".toList

/-- The same response serialized with the two header lines in the other
iteration order (Content-Length line first). -/
def c1Swapped : Str :=
  "HTTP/1.1 200 OK\r\nContent-Length: 3\r\nContent-Type: text/plain\r\n\r\nabc".toList

end HttpServer

namespace HttpServer

/-!  Correspondence of the char-list literals with the string literals of
the source, and general lemmas about the embedded nom combinators. -/

theorem litGET_eq : litGET = "GET".toList := rfl

theorem litUserAgent_eq : litUserAgent = "User-Agent".toList := rfl

theorem litEchoPre_eq : litEchoPre = "/echo/".toList := rfl

theorem litUserAgentPath_eq : litUserAgentPath = "/user-agent".toList := rfl

theorem isPrefixOf_append_self (t s : Str) : t.isPrefixOf (t ++ s) = true := by
  simp [List.isPrefixOf_iff_prefix, List.prefix_append]

theorem ptag_append (t s : Str) : ptag t (t ++ s) = .ok s t := by
  simp [ptag, isPrefixOf_append_self, List.drop_left]

theorem ptag_ok {t i r v : Str} (h : ptag t i = .ok r v) : i = t ++ r ∧ v = t := by
  unfold ptag at h
  by_cases hp : t.isPrefixOf i = true
  · rw [if_pos hp] at h
    obtain ⟨s, hs⟩ := List.isPrefixOf_iff_prefix.mp hp
    cases h
    subst hs
    simp [List.drop_left]
  · rw [if_neg hp] at h
    split at h <;> cases h

theorem stripPre_append (t s : Str) : stripPre t (t ++ s) = some s := by
  simp [stripPre, isPrefixOf_append_self, List.drop_left]

theorem method_parse_ok_prefix {input r : Str} {m : Method}
    (h : Method.parse input = .ok r m) :
    litGET.isPrefixOf input = true ∨ litPOST.isPrefixOf input = true ∨
      litPUT.isPrefixOf input = true ∨ litDELETE.isPrefixOf input = true := by
  unfold Method.parse at h
  cases h1 : ptag litGET input with
  | ok r1 v1 =>
    obtain ⟨rfl, -⟩ := ptag_ok h1
    exact Or.inl (isPrefixOf_append_self _ _)
  | incomplete => rw [h1] at h; cases h
  | error =>
    rw [h1] at h
    cases h2 : ptag litPOST input with
    | ok r2 v2 =>
      obtain ⟨rfl, -⟩ := ptag_ok h2
      exact Or.inr (Or.inl (isPrefixOf_append_self _ _))
    | incomplete => rw [h2] at h; cases h
    | error =>
      rw [h2] at h
      cases h3 : ptag litPUT input with
      | ok r3 v3 =>
        obtain ⟨rfl, -⟩ := ptag_ok h3
        exact Or.inr (Or.inr (Or.inl (isPrefixOf_append_self _ _)))
      | incomplete => rw [h3] at h; cases h
      | error =>
        rw [h3] at h
        cases h4 : ptag litDELETE input with
        | ok r4 v4 =>
          obtain ⟨rfl, -⟩ := ptag_ok h4
          exact Or.inr (Or.inr (Or.inr (isPrefixOf_append_self _ _)))
        | incomplete => rw [h4] at h; cases h
        | error => rw [h4] at h; cases h

end HttpServer

namespace HttpServer

/-- C5: For every method and every header map, routing the path `"/"`
yields a Response with status Ok, an empty header map, and an empty
body. -/
theorem root_route_ok (m : Method) (hs : Headers) :
    route m litRoot hs = .ok { status := .Ok, headers := .empty, body := [] } := rfl

/-- C9: Routing is independent of the request method: for every path,
every header map, and every pair of methods, routing produces the same
result (the method parameter is never inspected). -/
theorem route_ignores_method (m1 m2 : Method) (path : Str) (hs : Headers) :
    route m1 path hs = route m2 path hs := rfl

/-- C2: For every suffix S (possibly empty, possibly containing slashes,
containing no space and no CRLF byte), routing the path `"/echo/" ++ S`
under any method and any header map yields status Ok, body exactly S, a
Content-Type header equal to `"text/plain"`, and a Content-Length header
equal to the byte length of S rendered in decimal. -/
theorem echo_route_ok (m : Method) (hs : Headers) (S : Str)
    (_hsp : ' ' ∉ S) (_hcr : '\r' ∉ S) (_hlf : '\n' ∉ S) :
    route m (litEchoPre ++ S) hs =
      .ok { status := .Ok
            headers := { userAgent := none, contentType := some litTextPlain,
                         contentLength := some (usizeToString S.length) }
            body := S } := by
  unfold route
  rw [if_neg (fun h => by have := congrArg List.length h; simp [litEchoPre, litRoot] at this),
    if_neg (fun h => by
      have := congrArg (fun l => l[1]?) h
      simp [litEchoPre, litUserAgentPath] at this),
    stripPre_append]
  rfl

theorem echo_route_ok_witness :
    ' ' ∉ ("abc".toList) ∧ '\r' ∉ ("abc".toList) ∧ '\n' ∉ ("abc".toList) ∧
      route .GET (litEchoPre ++ "abc".toList) Headers.empty =
        .ok { status := .Ok
              headers := { userAgent := none, contentType := some litTextPlain,
                           contentLength := some (usizeToString 3) }
              body := "abc".toList } :=
  ⟨by decide, by decide, by decide,
    echo_route_ok .GET Headers.empty ("abc".toList) (by decide) (by decide) (by decide)⟩

/-- C3: For every text value V, routing the path `"/user-agent"` with a
header map binding User-Agent to V yields status Ok, body exactly V, a
Content-Type header equal to `"text/plain"`, and a Content-Length header
equal to the byte length of V rendered in decimal. -/
theorem user_agent_route_ok (m : Method) (hs : Headers) (V : Str)
    (hua : hs.get .UserAgent = some V) :
    route m litUserAgentPath hs =
      .ok { status := .Ok
            headers := { userAgent := none, contentType := some litTextPlain,
                         contentLength := some (usizeToString V.length) }
            body := V } := by
  have hstep : route m litUserAgentPath hs =
      (match hs.get Header.UserAgent with
        | none => Except.error HandleError.missingRequiredHeader
        | some ua =>
          Except.ok { status := .Ok
                      headers := (Headers.empty.insert .ContentType litTextPlain).insert
                        .ContentLength (usizeToString ua.length)
                      body := ua }) := rfl
  rw [hstep, hua]
  rfl

theorem user_agent_route_ok_witness :
    (Headers.empty.insert .UserAgent ("curl/7.64.1".toList)).get .UserAgent =
        some ("curl/7.64.1".toList) ∧
      route .GET litUserAgentPath (Headers.empty.insert .UserAgent ("curl/7.64.1".toList)) =
        .ok { status := .Ok
              headers := { userAgent := none, contentType := some litTextPlain,
                           contentLength := some (usizeToString 11) }
              body := "curl/7.64.1".toList } :=
  ⟨by decide, user_agent_route_ok .GET _ ("curl/7.64.1".toList) (by decide)⟩

end HttpServer

namespace HttpServer

/-- C6: For every path that is not `"/"`, not `"/user-agent"`, and does
not start with `"/echo/"`, routing yields status NotFound with an empty
header map and empty body, and that response serializes (under any
admissible header iteration order — here necessarily the empty one) to
exactly the bytes `"HTTP/1.1 404 Not Found\r\n\r\n"`. -/
theorem not_found_route (m : Method) (hs : Headers) (path : Str)
    (h1 : path ≠ litRoot) (h2 : path ≠ litUserAgentPath)
    (h3 : litEchoPre.isPrefixOf path = false) :
    route m path hs = .ok notFoundResponse ∧
    ∀ order, order.Perm notFoundResponse.headers.presentKeys →
      serializeResponse order notFoundResponse = "HTTP/1.1 404 Not Found\r\n\r\n".toList := by
  constructor
  · unfold route
    rw [if_neg h1, if_neg h2]
    have hstrip : stripPre litEchoPre path = none := by simp [stripPre, h3]
    rw [hstrip]
    rfl
  · intro order hperm
    have horder : order = [] := hperm.eq_nil
    subst horder
    rfl

theorem not_found_route_witness :
    ("/nope".toList ≠ litRoot) ∧ ("/nope".toList ≠ litUserAgentPath) ∧
      litEchoPre.isPrefixOf ("/nope".toList) = false ∧
      route .GET ("/nope".toList) Headers.empty = .ok notFoundResponse ∧
      serializeResponse [] notFoundResponse = "HTTP/1.1 404 Not Found\r\n\r\n".toList := by
  have h := not_found_route .GET Headers.empty ("/nope".toList)
    (by decide) (by decide) (by decide)
  exact ⟨by decide, by decide, by decide, h.1, h.2 [] (List.Perm.refl _)⟩

/-- C7 counterexample: the input `"GETX / HTTP/1.1"` begins with the
token `"GETX"`, which is none of the four method literals, and yet
`Method::parse` succeeds on it (nom `tag` matches prefixes, so it returns
GET and leaves `"X / HTTP/1.1"`), refuting the claim that such inputs
fail. -/
theorem method_parse_token_counterexample :
    tokenOf ("GETX / HTTP/1.1".toList) = "GETX".toList ∧
      "GETX".toList ∉ [litGET, litPOST, litPUT, litDELETE] ∧
      Method.parse ("GETX / HTTP/1.1".toList) = .ok ("X / HTTP/1.1".toList) .GET :=
  ⟨by decide, by decide, by decide⟩

/-- C7 (amended): For each of the four methods, `Method::parse` on a
string beginning with that method's exact literal followed by a space
succeeds, returns that variant, and consumes exactly the method token
(the remainder starts at the space); and `Method::parse` fails on any
input of which none of the four literals is a prefix (rather than on any
input whose leading token differs from the four literals, which is
refuted by `"GETX ..."`). -/
theorem method_parse_amended :
    (∀ rest, Method.parse (litGET ++ ' ' :: rest) = .ok (' ' :: rest) .GET) ∧
    (∀ rest, Method.parse (litPOST ++ ' ' :: rest) = .ok (' ' :: rest) .POST) ∧
    (∀ rest, Method.parse (litPUT ++ ' ' :: rest) = .ok (' ' :: rest) .PUT) ∧
    (∀ rest, Method.parse (litDELETE ++ ' ' :: rest) = .ok (' ' :: rest) .DELETE) ∧
    (∀ input : Str, litGET.isPrefixOf input = false → litPOST.isPrefixOf input = false →
      litPUT.isPrefixOf input = false → litDELETE.isPrefixOf input = false →
      ∀ r m, Method.parse input ≠ .ok r m) := by
  refine ⟨fun _ => rfl, fun _ => rfl, fun _ => rfl, fun _ => rfl, ?_⟩
  intro input h1 h2 h3 h4 r m hok
  rcases method_parse_ok_prefix hok with h | h | h | h <;> simp_all

theorem method_parse_amended_witness :
    Method.parse (litGET ++ ' ' :: "/ HTTP/1.1".toList) =
        .ok (' ' :: "/ HTTP/1.1".toList) .GET ∧
      litGET.isPrefixOf ("HEAD / HTTP/1.1".toList) = false ∧
      Method.parse ("HEAD / HTTP/1.1".toList) ≠ .ok (" / HTTP/1.1".toList) .GET :=
  ⟨method_parse_amended.1 _, by decide,
    method_parse_amended.2.2.2.2 _ (by decide) (by decide) (by decide) (by decide) _ _⟩

end HttpServer
namespace HttpServer

theorem findSubstring_cons (t : Str) (c : Char) (cs : Str) :
    findSubstring t (c :: cs) =
      if t.isPrefixOf (c :: cs) then some 0
      else (findSubstring t cs).map (· + 1) := rfl

theorem findSubstring_sep_head (b : Str) : findSubstring litSep (litSep ++ b) = some 0 := by
  rw [show litSep ++ b = ':' :: (' ' :: b) from rfl, findSubstring_cons, if_pos]
  exact isPrefixOf_append_self litSep b

theorem findSubstring_sep_boundary {a : Str} (b : Str) (ha : ':' ∉ a) :
    findSubstring litSep (a ++ litSep ++ b) = some a.length := by
  induction a with
  | nil =>
    rw [List.nil_append]
    exact findSubstring_sep_head b
  | cons c a ih =>
    have hcne : ':' ≠ c := fun he => ha (he ▸ List.mem_cons_self _ _)
    have hc : litSep.isPrefixOf (c :: (a ++ litSep ++ b)) = false := by
      show List.isPrefixOf [':', ' '] (c :: (a ++ litSep ++ b)) = false
      rw [List.isPrefixOf_cons₂, beq_eq_false_iff_ne.mpr hcne, Bool.false_and]
    have ha' : ':' ∉ a := fun hm => ha (List.mem_cons_of_mem _ hm)
    calc findSubstring litSep ((c :: a) ++ litSep ++ b)
        = findSubstring litSep (c :: (a ++ litSep ++ b)) := by
          rw [List.cons_append, List.cons_append]
      _ = (findSubstring litSep (a ++ litSep ++ b)).map (· + 1) := by
          rw [findSubstring_cons, hc]
          simp
      _ = (some a.length).map (· + 1) := by rw [ih ha']
      _ = some (c :: a).length := rfl

theorem findSubstring_sep_some (a b : Str) :
    findSubstring litSep (a ++ litSep ++ b) ≠ none := by
  induction a with
  | nil =>
    rw [List.nil_append, findSubstring_sep_head]
    simp
  | cons c a ih =>
    rw [List.cons_append, List.cons_append, findSubstring_cons]
    by_cases hpre : litSep.isPrefixOf (c :: (a ++ litSep ++ b)) = true
    · rw [if_pos hpre]
      simp
    · rw [if_neg hpre]
      cases hfs : findSubstring litSep (a ++ litSep ++ b) with
      | none => exact absurd hfs ih
      | some n => simp

end HttpServer
namespace HttpServer

theorem header_parse_ok {line r : Str} {h : Header}
    (hp : Header.parse line = .ok r h) : line = headerName h ++ r := by
  unfold Header.parse at hp
  cases h1 : ptag litUserAgent line with
  | ok r1 v1 =>
    rw [h1] at hp
    cases hp
    exact (ptag_ok h1).1
  | incomplete => rw [h1] at hp; cases hp
  | error =>
    rw [h1] at hp
    cases h2 : ptag litContentType line with
    | ok r2 v2 =>
      rw [h2] at hp
      cases hp
      exact (ptag_ok h2).1
    | incomplete => rw [h2] at hp; cases hp
    | error =>
      rw [h2] at hp
      cases h3 : ptag litContentLength line with
      | ok r3 v3 =>
        rw [h3] at hp
        cases hp
        exact (ptag_ok h3).1
      | incomplete => rw [h3] at hp; cases hp
      | error => rw [h3] at hp; cases hp

theorem phv_ok {line r v : Str} {h : Header}
    (hp : parse_header_value line = .ok r (h, v)) :
    line = headerName h ++ litSep ++ v ∧ r = [] := by
  unfold parse_header_value at hp
  split at hp
  · cases hp
  · cases hp
  · rename_i r1 h1 heq1
    split at hp
    · cases hp
    · cases hp
    · rename_i r2 v2 heq2
      injection hp with hr hpair
      injection hpair with hh hv
      subst hr
      subst hh
      subst hv
      obtain ⟨hr1, -⟩ := ptag_ok heq2
      subst hr1
      refine ⟨?_, rfl⟩
      rw [header_parse_ok heq1, List.append_assoc]

theorem phv_not_ok_of_bad {line : Str}
    (hbad : headerNameOf line = none ∨
      ∃ nm, headerNameOf line = some nm ∧ nm ∉ recognizedNames) :
    ∀ r hv, parse_header_value line ≠ .ok r hv := by
  rintro r ⟨h, v⟩ hok
  obtain ⟨hline, -⟩ := phv_ok hok
  have hcolon : ':' ∉ headerName h := by cases h <;> decide
  have hfs : findSubstring litSep line = some (headerName h).length := by
    rw [hline]
    exact findSubstring_sep_boundary v hcolon
  have hname : headerNameOf line = some (headerName h) := by
    unfold headerNameOf
    rw [hfs, Option.map_some']
    rw [hline, List.append_assoc, List.take_left]
  rcases hbad with hnone | ⟨nm, hnm, hnotin⟩
  · rw [hname] at hnone; cases hnone
  · rw [hname] at hnm
    cases hnm
    exact hnotin (by cases h <;> decide)

/-- C8: Header-block parsing never aborts on an individual bad line: a
non-blank header line whose name (the text before the first `": "`) is
not among User-Agent, Content-Type, Content-Length, or that has no
`": "` separator at all, is rejected by `parse_header_value`, the loop
continues with the remaining lines, and the discarded line contributes
no entry to the resulting header map. -/
theorem bad_header_line_skipped (line : Str) (hne : line ≠ [])
    (hbad : headerNameOf line = none ∨
      ∃ nm, headerNameOf line = some nm ∧ nm ∉ recognizedNames) :
    (∀ r hv, parse_header_value line ≠ .ok r hv) ∧
    ∀ ls acc, collectHeaders (line :: ls) acc = collectHeaders ls acc := by
  have hnok := phv_not_ok_of_bad hbad
  refine ⟨hnok, fun ls acc => ?_⟩
  have hemp : line.isEmpty = false := List.isEmpty_eq_false.mpr hne
  show (if line.isEmpty = true then acc
    else match parse_header_value line with
      | .ok _ hv => collectHeaders ls (acc.insert hv.1 hv.2)
      | _ => collectHeaders ls acc) = collectHeaders ls acc
  rw [hemp]
  cases hphv : parse_header_value line with
  | ok r hv => exact absurd hphv (hnok r hv)
  | incomplete => simp
  | error => simp

theorem bad_header_line_skipped_witness :
    ("X-Custom: whatever".toList ≠ []) ∧
      parse_header_value ("X-Custom: whatever".toList) ≠
        .ok [] (Header.UserAgent, "whatever".toList) ∧
      collectHeaders ["X-Custom: whatever".toList, "User-Agent: x".toList] Headers.empty =
        collectHeaders ["User-Agent: x".toList] Headers.empty := by
  have h := bad_header_line_skipped ("X-Custom: whatever".toList) (by decide)
    (Or.inr ⟨"X-Custom".toList, by decide, by decide⟩)
  exact ⟨by decide, h.1 [] (Header.UserAgent, "whatever".toList),
    h.2 ["User-Agent: x".toList] Headers.empty⟩

end HttpServer
namespace HttpServer

theorem Headers.get_insert_self (acc : Headers) (h : Header) (v : Str) :
    (acc.insert h v).get h = some v := by
  cases h <;> rfl

theorem Headers.get_insert_ne (acc : Headers) {h h' : Header} (v : Str) (hne : h' ≠ h) :
    (acc.insert h' v).get h = acc.get h := by
  cases h' <;> cases h <;> first | rfl | exact absurd rfl hne

theorem collectHeaders_cons_eq (l : Str) (ls : List Str) (acc : Headers) :
    collectHeaders (l :: ls) acc =
      if l.isEmpty then acc
      else match parse_header_value l with
        | .ok _ hv => collectHeaders ls (acc.insert hv.1 hv.2)
        | _ => collectHeaders ls acc := rfl

theorem collectHeaders_append (xs ys : List Str) (acc : Headers) (hnb : ([] : Str) ∉ xs) :
    collectHeaders (xs ++ ys) acc = collectHeaders ys (collectHeaders xs acc) := by
  induction xs generalizing acc with
  | nil => rfl
  | cons l ls ih =>
    have hl : l ≠ [] := fun h => hnb (h ▸ List.mem_cons_self _ _)
    have hl' : l.isEmpty = false := List.isEmpty_eq_false.mpr hl
    have hnb' : ([] : Str) ∉ ls := fun h => hnb (List.mem_cons_of_mem _ h)
    rw [List.cons_append, collectHeaders_cons_eq, collectHeaders_cons_eq, hl']
    simp only [Bool.false_eq_true, if_false]
    cases hp : parse_header_value l with
    | ok r hv => exact ih _ hnb'
    | incomplete => exact ih _ hnb'
    | error => exact ih _ hnb'

theorem collectHeaders_get_no_match (h : Header) (ls : List Str) :
    ∀ (acc : Headers),
      (∀ l ∈ ls, ∀ r v, parse_header_value l ≠ .ok r (h, v)) →
      (collectHeaders ls acc).get h = acc.get h := by
  induction ls with
  | nil => intro acc _; rfl
  | cons l ls ih =>
    intro acc hno
    have hno' : ∀ l ∈ ls, ∀ r v, parse_header_value l ≠ .ok r (h, v) :=
      fun l' hl' => hno l' (List.mem_cons_of_mem _ hl')
    rw [collectHeaders_cons_eq]
    cases hemp : l.isEmpty with
    | true => simp
    | false =>
      simp only [Bool.false_eq_true, if_false]
      cases hp : parse_header_value l with
      | ok r hv =>
        obtain ⟨h', v⟩ := hv
        have hne : h' ≠ h := fun he =>
          hno l (List.mem_cons_self _ _) r v (he ▸ hp)
        rw [ih _ hno', Headers.get_insert_ne _ _ hne]
      | incomplete => exact ih _ hno'
      | error => exact ih _ hno'

/-- C10: When the header block contains two or more well-formed lines
with the same recognized header name, the resulting header map binds
that name to the value of the last such line: later `HashMap::insert`
calls overwrite earlier ones, so the earlier values are unobservable. -/
theorem duplicate_header_last_wins (pre mid post : List Str) (l1 l2 : Str)
    (h : Header) (v1 v2 : Str)
    (_h1 : ∃ r1, parse_header_value l1 = .ok r1 (h, v1))
    (h2 : ∃ r2, parse_header_value l2 = .ok r2 (h, v2))
    (hblank : ([] : Str) ∉ pre ++ l1 :: mid)
    (hpost : ∀ l ∈ post, ∀ r v, parse_header_value l ≠ .ok r (h, v)) :
    (collectHeaders (pre ++ l1 :: (mid ++ l2 :: post)) Headers.empty).get h = some v2 := by
  obtain ⟨r2, h2⟩ := h2
  have hl2 : l2 ≠ [] := by
    intro he
    rw [he, show parse_header_value [] = .incomplete from rfl] at h2
    cases h2
  have hl2' : l2.isEmpty = false := List.isEmpty_eq_false.mpr hl2
  have hassoc : pre ++ l1 :: (mid ++ l2 :: post) = (pre ++ l1 :: mid) ++ (l2 :: post) := by
    simp
  rw [hassoc, collectHeaders_append _ _ _ hblank, collectHeaders_cons_eq, hl2', h2]
  simp only [Bool.false_eq_true, if_false]
  rw [collectHeaders_get_no_match h post _ hpost, Headers.get_insert_self]

theorem duplicate_header_last_wins_witness :
    (∃ r1, parse_header_value ("User-Agent: one".toList) =
        .ok r1 (Header.UserAgent, "one".toList)) ∧
      (∃ r2, parse_header_value ("User-Agent: two".toList) =
        .ok r2 (Header.UserAgent, "two".toList)) ∧
      (collectHeaders ["User-Agent: one".toList, "User-Agent: two".toList]
          Headers.empty).get .UserAgent = some ("two".toList) :=
  ⟨⟨[], by decide⟩, ⟨[], by decide⟩,
    duplicate_header_last_wins [] [] [] ("User-Agent: one".toList)
      ("User-Agent: two".toList) .UserAgent ("one".toList) ("two".toList)
      ⟨[], by decide⟩ ⟨[], by decide⟩ (by decide) (by simp)⟩

end HttpServer
namespace HttpServer

/-- C4: For every request whose parsed path is `"/user-agent"` and whose
collected header map has no User-Agent entry, the connection handler
fails with the missing-required-header condition (the `?` on
`headers.get(&Header::UserAgent)`), and the write of response bytes is
never reached: no bytes are produced for any header iteration order. -/
theorem user_agent_missing_aborts (reqLine : Str) (more : List Str) (r : Str)
    (rl : RequestLine)
    (hparse : RequestLine.parse reqLine = .ok r rl)
    (hpath : rl.path = litUserAgentPath)
    (hua : (collectHeaders more Headers.empty).get .UserAgent = none) :
    handleLines (reqLine :: more) = .error .missingRequiredHeader ∧
    ∀ order input, linesOf input = reqLine :: more → outputBytes order input = none := by
  have hmain : handleLines (reqLine :: more) = .error .missingRequiredHeader := by
    show (match RequestLine.parse reqLine with
      | .ok _ rl => route rl.method rl.path (collectHeaders more .empty)
      | _ => .error .malformedRequestLine) = .error .missingRequiredHeader
    rw [hparse]
    show route rl.method rl.path (collectHeaders more Headers.empty) =
      Except.error HandleError.missingRequiredHeader
    rw [hpath]
    have hstep : route rl.method litUserAgentPath (collectHeaders more Headers.empty) =
        (match (collectHeaders more Headers.empty).get Header.UserAgent with
          | none => Except.error HandleError.missingRequiredHeader
          | some ua =>
            Except.ok { status := .Ok
                        headers := (Headers.empty.insert .ContentType litTextPlain).insert
                          .ContentLength (usizeToString ua.length)
                        body := ua }) := rfl
    rw [hstep, hua]
  refine ⟨hmain, fun order input hin => ?_⟩
  unfold outputBytes
  rw [hin, hmain]

theorem user_agent_missing_aborts_witness :
    RequestLine.parse ("GET /user-agent HTTP/1.1".toList) =
        .ok [] { method := .GET, path := litUserAgentPath } ∧
      (collectHeaders [([] : Str)] Headers.empty).get .UserAgent = none ∧
      handleLines ["GET /user-agent HTTP/1.1".toList, []] =
        .error .missingRequiredHeader ∧
      outputBytes [] ("GET /user-agent HTTP/1.1\r\n\r\n".toList) = none := by
  have h := user_agent_missing_aborts ("GET /user-agent HTTP/1.1".toList) [([] : Str)]
    [] { method := .GET, path := litUserAgentPath } (by decide) rfl (by decide)
  exact ⟨by decide, by decide, h.1,
    h.2 [] ("GET /user-agent HTTP/1.1\r\n\r\n".toList) (by decide)⟩

theorem perm_pair_eq {α : Type} [DecidableEq α] {l : List α} {a b : α} (hab : a ≠ b)
    (p : l.Perm [a, b]) : l = [a, b] ∨ l = [b, a] := by
  have hlen := p.length_eq
  match l, p, hlen with
  | [x, y], p, _ =>
    have hx : x ∈ [a, b] := p.mem_iff.mp (List.mem_cons_self _ _)
    have hy : y ∈ [a, b] := p.mem_iff.mp (List.mem_cons_of_mem _ (List.mem_cons_self _ _))
    simp only [List.mem_cons, List.mem_singleton, List.not_mem_nil, or_false] at hx hy
    rcases hx with rfl | rfl <;> rcases hy with rfl | rfl
    · exfalso
      have hc := p.count_eq b
      simp [List.count_cons, hab, Ne.symm hab] at hc
    · exact Or.inl rfl
    · exact Or.inr rfl
    · exfalso
      have hc := p.count_eq a
      simp [List.count_cons, hab, Ne.symm hab] at hc

/-- C1 counterexample: the response to the fixed request
`"GET /echo/abc HTTP/1.1\r\n\r\n"` carries its two headers in a
`HashMap`, whose iteration order the `Display` impl follows and which is
not specified; the admissible order that visits Content-Length first is
a permutation of the present keys and serializes to different bytes than
the claimed literal, so "every run produces exactly these bytes with
Content-Type before Content-Length" does not hold of the code. -/
theorem echo_serialization_counterexample :
    handleLines (linesOf c1Input) = .ok c1Response ∧
      ¬ (∀ order, order.Perm c1Response.headers.presentKeys →
          serializeResponse order c1Response = c1Literal) := by
  constructor
  · rfl
  · intro hall
    have hc := hall [Header.ContentLength, Header.ContentType] (by decide)
    exact absurd hc (by decide)

/-- C1 (amended): the fixed request deterministically routes to the Ok
response with Content-Type `text/plain`, Content-Length `3` and body
`abc`; serializing it with the iteration order Content-Type then
Content-Length yields exactly the claimed literal; and under every
admissible `HashMap` iteration order the serializer emits either that
literal or the same bytes with the two header lines swapped — in both
cases with the status line first, then the headers, a blank line, and
the body with no trailing terminator. -/
theorem echo_serialization_amended :
    handleLines (linesOf c1Input) = .ok c1Response ∧
      serializeResponse c1Response.headers.presentKeys c1Response = c1Literal ∧
      ∀ order, order.Perm c1Response.headers.presentKeys →
        serializeResponse order c1Response = c1Literal ∨
          serializeResponse order c1Response = c1Swapped := by
  refine ⟨rfl, by decide, ?_⟩
  intro order hperm
  have hkeys : c1Response.headers.presentKeys = [Header.ContentType, Header.ContentLength] :=
    rfl
  rw [hkeys] at hperm
  rcases perm_pair_eq (by decide) hperm with rfl | rfl
  · exact Or.inl (by decide)
  · exact Or.inr (by decide)

theorem echo_serialization_amended_witness :
    serializeResponse [Header.ContentLength, Header.ContentType] c1Response = c1Literal ∨
      serializeResponse [Header.ContentLength, Header.ContentType] c1Response = c1Swapped :=
  echo_serialization_amended.2.2 [Header.ContentLength, Header.ContentType] (by decide)

end HttpServer
